import Mathlib

/-!
Verification of `src/maro/cli/process/agent/job_agent.py`: the pending-job
scheduler (`PendingJobAgent`), the liveness tracker (`JobTrackingAgent`) and
the kill-ticket processor (`KilledJobAgent`).

The shared redis coordination store is embedded as explicit state
(`Store`): the pending-ticket list, the kill-ticket list, the running-job
hash, the job-details hash and the relevant fields of the settings hash.
Redis hashes are association lists with unique keys; redis list/hash
primitives (`lrange`, `lrem key 0 v`, `hget`, `hset`, `hdel`, `hexists`,
`hlen`, `llen`) are modelled exactly as the code uses them.

Values stored in redis are JSON texts produced by `json.dumps`; we model a
stored value (`StoreVal`) as either the parsed Python value (`PyVal`) or an
unparseable payload, and `json.loads` as `jsonLoads`.  Python `dict`
iteration yields the keys, which is what `KilledJobAgent._stop_job` relies
on when it writes `for pid in pid_list` over a parsed running record.

A Python exception aborts the rest of a poll cycle but redis effects
already performed persist; every cycle function therefore returns the
store as mutated so far together with `Option PyErr` (`none` = the cycle
completed, `some e` = the cycle raised `e` at that point).

External collaborators (process spawning via `subprocess.Popen` +
`get_child_pid`, `psutil.pid_exists`, `os.getpgid`, `close_by_pid`) are an
environment `Env` of oracles; the signals they send are recorded as
`Event`s.
-/

namespace JobAgent

/-- Parsed Python/JSON values, the result of `json.loads`. -/
inductive PyVal : Type where
  | pyint (n : Int)
  | pystr (s : String)
  | pylist (xs : List PyVal)
  | pydict (fields : List (String × PyVal))

/-- Python exceptions that the agent code can raise. -/
inductive PyErr : Type where
  | typeError
  | keyError (k : String)
  | jsonDecodeError
deriving DecidableEq

/-- A value stored in redis: either a payload that `json.loads` parses to
a `PyVal`, or a malformed payload on which `json.loads` raises. -/
inductive StoreVal : Type where
  | parsed (v : PyVal)
  | malformed

/-- `json.loads` on a stored payload. -/
def jsonLoads : StoreVal → Except PyErr PyVal
  | .parsed v => .ok v
  | .malformed => .error .jsonDecodeError

/-- Python iteration `for x in v`: a list yields its elements, a dict
yields its keys (as strings), a string yields its characters, an int is
not iterable (TypeError). -/
def pyIter : PyVal → Except PyErr (List PyVal)
  | .pylist xs => .ok xs
  | .pydict fields => .ok (fields.map fun kv => .pystr kv.1)
  | .pystr s => .ok (s.toList.map fun c => .pystr (String.mk [c]))
  | .pyint _ => .error .typeError

/-- Python subscript `v[k]` with a string key: KeyError on a dict missing
the key, TypeError when `v` is not a dict. -/
def pyIndex (v : PyVal) (k : String) : Except PyErr PyVal :=
  match v with
  | .pydict fields =>
    match fields.find? (fun kv => kv.1 = k) with
    | some kv => .ok kv.2
    | none => .error (.keyError k)
  | _ => .error .typeError

/-- Coerce a Python value to the machine integer that `os.getpgid` /
`psutil.pid_exists` require; anything but an int is a TypeError. -/
def pyToInt : PyVal → Except PyErr Int
  | .pyint n => .ok n
  | _ => .error .typeError

/-- Coerce a list of Python values to integers, raising at the first
non-integer. -/
def pyInts : List PyVal → Except PyErr (List Int)
  | [] => .ok []
  | p :: rest =>
    match pyToInt p with
    | .error e => .error e
    | .ok n =>
      match pyInts rest with
      | .error e => .error e
      | .ok ns => .ok (n :: ns)

/-- Coerce a Python value to a list of integer pids (the shape
`close_by_pid` consumes). -/
def pyToIntList (v : PyVal) : Except PyErr (List Int) :=
  match v with
  | .pylist xs => pyInts xs
  | _ => .error .typeError

/-- Redis `HGET`: the value under a key of a hash, if present. -/
def hget {α : Type} (m : List (String × α)) (k : String) : Option α :=
  (m.find? (fun kv => kv.1 = k)).map (fun kv => kv.2)

/-- Redis `HEXISTS`. -/
def hexists {α : Type} (m : List (String × α)) (k : String) : Bool :=
  m.any (fun kv => kv.1 = k)

/-- Redis `HSET`: overwrite the field if present, else append it. -/
def hset {α : Type} (m : List (String × α)) (k : String) (v : α) :
    List (String × α) :=
  if m.any (fun kv => kv.1 = k) then
    m.map (fun kv => if kv.1 = k then (k, v) else kv)
  else m ++ [(k, v)]

/-- Redis `HDEL`. -/
def hdel {α : Type} (m : List (String × α)) (k : String) :
    List (String × α) :=
  m.filter (fun kv => ¬ kv.1 = k)

/-- Redis `LREM key 0 value`: remove every occurrence of `value`. -/
def lrem (l : List String) (v : String) : List String :=
  l.filter (fun x => x ≠ v)

/-- The shared coordination store as the agents see it: the pending-ticket
list, the kill-ticket list, the running-job hash, the job-details hash,
and the settings fields the agents read or write (`parallel_level`,
`agent_pid`, `agent_status`; `keep_agent_alive` is read inside
`JobTrackingAgent.run` and is passed to the tracker cycle as an input). -/
structure Store : Type where
  pendingTickets : List String
  killedTickets : List String
  runningJob : List (String × StoreVal)
  jobDetails : List (String × StoreVal)
  parallelLevel : Int
  agentPid : Int
  agentStatus : Int

/-- Observable side effects on the world outside the store. -/
inductive Event : Type where
  /-- `subprocess.Popen` of one component instance plus the
  `get_child_pid` resolution: job, component type, instance index,
  launcher (shell) pid, resolved worker (command) pid. -/
  | spawn (job : String) (componentType : String) (idx : Nat)
      (shellPid : Int) (commandPid : Int)
  /-- `os.killpg(os.getpgid(pid), signal.SIGTERM)`. -/
  | killpg (pgid : Int)
  /-- `close_by_pid(pids)` on the recorded shell pids of a finished job. -/
  | closePids (pids : List Int)
  /-- `close_by_pid(pid=agent_pid, recursive=True)`: terminate the master
  process tree. -/
  | closeAgentTree (pid : Int)
  /-- The single `hset` writing a whole RunningRecord. -/
  | writeRunning (job : String)
deriving DecidableEq

/-- Oracles for the external collaborators: `spawnPids k` gives the
(shell pid, resolved worker pid) pair returned by the `k`-th
`subprocess.Popen` + `get_child_pid` of the run, `pidExists` is
`psutil.pid_exists`, `getpgid` is `os.getpgid`. -/
structure Env : Type where
  spawnPids : Nat → Int × Int
  pidExists : Int → Bool
  getpgid : Int → Int

/-- One component type of a JobSpec as `_start_job` consumes it:
`command_info["num"]` and `command_info["command"]`. -/
structure CompInfo : Type where
  num : Int
  command : String

/-- A parsed JobSpec as `_start_job` consumes it: `job_details["name"]`
and `job_details["components"].items()` in dict order. -/
structure JobDetail : Type where
  name : String
  components : List (String × CompInfo)

/-- The shape checks CPython performs when `_start_job` subscripts the
parsed job details (`["components"]`, `["num"]`, `["command"]`,
`["name"]`).  The code performs them lazily during `_start_job`; we
check them when the details are loaded — no claim distinguishes the two
moments, and the individual subscript errors are collapsed into one. -/
def parseCompInfo : PyVal → Option CompInfo
  | .pydict fields =>
    match hget fields "num", hget fields "command" with
    | some (.pyint n), some (.pystr c) => some ⟨n, c⟩
    | _, _ => none
  | _ => none

/-- Parse `job_details["components"]`: a dict of component type to
command info. -/
def parseComponents : PyVal → Option (List (String × CompInfo))
  | .pydict fields =>
    fields.mapM (fun kv => (parseCompInfo kv.2).map (fun ci => (kv.1, ci)))
  | _ => none

/-- Parse a whole job-details value into the fields `_start_job` reads. -/
def parseDetail (v : PyVal) : Option JobDetail :=
  match v with
  | .pydict fields =>
    match hget fields "name", (hget fields "components").bind parseComponents with
    | some (.pystr n), some comps => some ⟨n, comps⟩
    | _, _ => none
  | _ => none

/-- Accumulated output of the spawning loops of `_start_job`: the spawn
events, the `pid_dict["shell_pids"]` and `pid_dict["command_pids"]`
accumulators, and the next spawn sequence number. -/
structure SpawnOut : Type where
  events : List Event
  shellPids : List Int
  commandPids : List Int
  spawnCount : Nat

/-- The inner loop of `_start_job`: `for num in range(number)` spawn one
instance (`subprocess.Popen` + `get_child_pid`), appending the shell pid
and the resolved command pid.  `n` counts the remaining instances, `idx`
is the current instance index, `cnt` the global spawn sequence number. -/
def spawnInstances (env : Env) (job ctype : String) :
    Nat → Nat → Nat → SpawnOut
  | 0, _, cnt => ⟨[], [], [], cnt⟩
  | n + 1, idx, cnt =>
    let pids := env.spawnPids cnt
    let rest := spawnInstances env job ctype n (idx + 1) (cnt + 1)
    ⟨.spawn job ctype idx pids.1 pids.2 :: rest.events,
     pids.1 :: rest.shellPids, pids.2 :: rest.commandPids, rest.spawnCount⟩

/-- The outer loop of `_start_job`: `for component_type, command_info in
job_details["components"].items()`, spawning `num` instances of each
(Python `range` of a non-positive number is empty, hence `toNat`). -/
def spawnComponents (env : Env) (job : String) :
    List (String × CompInfo) → Nat → SpawnOut
  | [], cnt => ⟨[], [], [], cnt⟩
  | (ctype, info) :: rest, cnt =>
    let o1 := spawnInstances env job ctype info.num.toNat 0 cnt
    let o2 := spawnComponents env job rest o1.spawnCount
    ⟨o1.events ++ o2.events, o1.shellPids ++ o2.shellPids,
     o1.commandPids ++ o2.commandPids, o2.spawnCount⟩

/-- `json.dumps(pid_dict)` for the `defaultdict(list)` of `_start_job`:
the keys exist exactly when something was appended to them (the shell
pid is appended first in each iteration, so either both keys exist or
the dict is empty). -/
def recordOf (sh cm : List Int) : PyVal :=
  if sh.isEmpty && cm.isEmpty then .pydict []
  else .pydict [("shell_pids", .pylist (sh.map .pyint)),
                ("command_pids", .pylist (cm.map .pyint))]

/-- `PendingJobAgent._start_job` (lines 45–61): spawn every instance of
every component, then write the whole RunningRecord with a single
`hset` on the running-job hash. -/
def startJob (env : Env) (cnt : Nat) (st : Store) (d : JobDetail) :
    Store × List Event × Nat :=
  let o := spawnComponents env d.name d.components cnt
  let written : StoreVal := .parsed (recordOf o.shellPids o.commandPids)
  ({ st with runningJob := hset st.runningJob d.name written },
   o.events ++ [.writeRunning d.name], o.spawnCount)

/-- Result of (a prefix of) one scheduler poll cycle: the store as
mutated so far, the events emitted so far, the next spawn sequence
number, and the exception that aborted the cycle, if any. -/
structure PRes : Type where
  store : Store
  events : List Event
  spawnCount : Nat
  err : Option PyErr

/-- One iteration of `_check_pending_ticket`'s loop (lines 34–43):
`json.loads` the job details (`json.loads(None)` when the hash has no
entry is a TypeError), re-read `hlen` of the running hash and
`parallel_level`, and admit — spawn via `_start_job`, then `lrem` the
ticket — only when `int(parallel_level) > running_jobs_length`. -/
def stepPending (env : Env) (st : Store) (ev : List Event) (cnt : Nat)
    (job : String) : PRes :=
  match hget st.jobDetails job with
  | none => ⟨st, ev, cnt, some .typeError⟩
  | some sv =>
    match jsonLoads sv with
    | .error e => ⟨st, ev, cnt, some e⟩
    | .ok detailVal =>
      if (st.runningJob.length : Int) < st.parallelLevel then
        match parseDetail detailVal with
        | none => ⟨st, ev, cnt, some .typeError⟩
        | some d =>
          let r := startJob env cnt st d
          ⟨{ r.1 with pendingTickets := lrem r.1.pendingTickets job },
           ev ++ r.2.1, r.2.2, none⟩
      else ⟨st, ev, cnt, none⟩

/-- The loop of `_check_pending_ticket` over the `lrange` snapshot of
the pending-ticket list; an exception stops the loop, keeping the redis
effects performed so far. -/
def checkPendingFrom (env : Env) :
    Store → List Event → Nat → List String → PRes
  | st, ev, cnt, [] => ⟨st, ev, cnt, none⟩
  | st, ev, cnt, job :: rest =>
    match stepPending env st ev cnt job with
    | ⟨st1, ev1, cnt1, some e⟩ => ⟨st1, ev1, cnt1, some e⟩
    | ⟨st1, ev1, cnt1, none⟩ => checkPendingFrom env st1 ev1 cnt1 rest

/-- `PendingJobAgent._check_pending_ticket` (lines 30–43): one scheduler
poll cycle. -/
def checkPendingTicket (env : Env) (cnt : Nat) (st : Store) : PRes :=
  checkPendingFrom env st [] cnt st.pendingTickets

/-- Result of (a prefix of) one kill-processor or tracker poll cycle. -/
structure CRes : Type where
  store : Store
  events : List Event
  err : Option PyErr

/-- The loop of `_stop_job`: `os.killpg(os.getpgid(pid), SIGTERM)` for
each element; `os.getpgid` on a non-integer is a TypeError. -/
def killPids (env : Env) (ev : List Event) :
    List PyVal → List Event × Option PyErr
  | [] => (ev, none)
  | p :: rest =>
    match pyToInt p with
    | .error e => (ev, some e)
    | .ok n => killPids env (ev ++ [.killpg (env.getpgid n)]) rest

/-- `KilledJobAgent._stop_job` (lines 138–143): iterate `pid_list` —
the value parsed from the stored RunningRecord, so iterating it yields
whatever Python iteration of that value yields — signal each element's
process group, then `hdel` the job from the running hash. -/
def stopJob (env : Env) (st : Store) (ev : List Event) (job : String)
    (pidList : PyVal) : CRes :=
  match pyIter pidList with
  | .error e => ⟨st, ev, some e⟩
  | .ok items =>
    match killPids env ev items with
    | (ev', some e) => ⟨st, ev', some e⟩
    | (ev', none) => ⟨{ st with runningJob := hdel st.runningJob job }, ev', none⟩

/-- One iteration of `_check_kill_ticket`'s loop (lines 129–136): if the
job has a RunningRecord, `json.loads` it and `_stop_job`; otherwise
`lrem` any matching pending ticket; in either successful case `lrem`
the kill ticket afterwards. -/
def stepKill (env : Env) (st : Store) (ev : List Event) (job : String) :
    CRes :=
  if hexists st.runningJob job then
    match hget st.runningJob job with
    | none => ⟨st, ev, some .typeError⟩
    | some raw =>
      match jsonLoads raw with
      | .error e => ⟨st, ev, some e⟩
      | .ok pidList =>
        match stopJob env st ev job pidList with
        | ⟨st1, ev1, some e⟩ => ⟨st1, ev1, some e⟩
        | ⟨st1, ev1, none⟩ =>
          ⟨{ st1 with killedTickets := lrem st1.killedTickets job }, ev1, none⟩
  else
    let st1 := { st with pendingTickets := lrem st.pendingTickets job }
    ⟨{ st1 with killedTickets := lrem st1.killedTickets job }, ev, none⟩

/-- The loop of `_check_kill_ticket` over the `lrange` snapshot of the
kill-ticket list. -/
def checkKillFrom (env : Env) : Store → List Event → List String → CRes
  | st, ev, [] => ⟨st, ev, none⟩
  | st, ev, job :: rest =>
    match stepKill env st ev job with
    | ⟨st1, ev1, some e⟩ => ⟨st1, ev1, some e⟩
    | ⟨st1, ev1, none⟩ => checkKillFrom env st1 ev1 rest

/-- `KilledJobAgent._check_kill_ticket` (lines 125–136): one
kill-processor poll cycle. -/
def checkKillTicket (env : Env) (st : Store) : CRes :=
  checkKillFrom env st [] st.killedTickets

/-- The `still_alive` loop of `_check_job_status`: every element is fed
to `psutil.pid_exists` (a non-integer is a TypeError there), and the
job is alive when any recorded command pid exists. -/
def anyAlive (env : Env) : List PyVal → Except PyErr Bool
  | [] => .ok false
  | p :: rest =>
    match pyToInt p with
    | .error e => .error e
    | .ok n =>
      match anyAlive env rest with
      | .error e => .error e
      | .ok b => .ok (env.pidExists n || b)

/-- One iteration of `_check_job_status`'s loop (lines 82–93) on one
`hgetall` snapshot entry: `json.loads` the record, iterate
`pid_dict["command_pids"]` through `psutil.pid_exists`; when none is
alive, `hdel` the job from the running hash and then
`close_by_pid(pid_dict["shell_pids"])`. -/
def stepTrack (env : Env) (st : Store) (ev : List Event)
    (entry : String × StoreVal) : CRes :=
  match jsonLoads entry.2 with
  | .error e => ⟨st, ev, some e⟩
  | .ok pidDict =>
    match pyIndex pidDict "command_pids" with
    | .error e => ⟨st, ev, some e⟩
    | .ok cmdVal =>
      match pyIter cmdVal with
      | .error e => ⟨st, ev, some e⟩
      | .ok pids =>
        match anyAlive env pids with
        | .error e => ⟨st, ev, some e⟩
        | .ok true => ⟨st, ev, none⟩
        | .ok false =>
          let st1 := { st with runningJob := hdel st.runningJob entry.1 }
          match pyIndex pidDict "shell_pids" with
          | .error e => ⟨st1, ev, some e⟩
          | .ok shVal =>
            match pyToIntList shVal with
            | .error e => ⟨st1, ev, some e⟩
            | .ok shPids => ⟨st1, ev ++ [.closePids shPids], none⟩

/-- The loop of `_check_job_status` over the `hgetall` snapshot. -/
def checkJobStatusFrom (env : Env) :
    Store → List Event → List (String × StoreVal) → CRes
  | st, ev, [] => ⟨st, ev, none⟩
  | st, ev, entry :: rest =>
    match stepTrack env st ev entry with
    | ⟨st1, ev1, some e⟩ => ⟨st1, ev1, some e⟩
    | ⟨st1, ev1, none⟩ => checkJobStatusFrom env st1 ev1 rest

/-- `JobTrackingAgent._check_job_status` (lines 79–93): one tracker
liveness pass. -/
def checkJobStatus (env : Env) (st : Store) : CRes :=
  checkJobStatusFrom env st [] st.runningJob

/-- `JobTrackingAgent._close_process_cli` (lines 95–111): increment the
shutdown counter when both the running hash and the pending list are
empty, else reset it to 0; at 5 or more, `close_by_pid` the stored
`agent_pid` recursively and set `agent_status` to 0.  Returns the
updated store, the new counter, and the emitted events. -/
def closeProcessCli (st : Store) (count : Nat) : Store × Nat × List Event :=
  let count1 :=
    if st.runningJob.length = 0 ∧ st.pendingTickets.length = 0
    then count + 1 else 0
  if 5 ≤ count1 then
    ({ st with agentStatus := 0 }, count1, [.closeAgentTree st.agentPid])
  else (st, count1, [])

/-- The shutdown-policy tail of one `JobTrackingAgent.run` cycle (lines
75–77): read `keep_agent_alive`; when it is falsy, run
`_close_process_cli`, otherwise do nothing.  (The liveness pass of the
same cycle is `checkJobStatus`; only `_close_process_cli` touches the
`_shutdown_count` counter.) -/
def trackerStep (st : Store) (keepAlive : Bool) (count : Nat) :
    Store × Nat × List Event :=
  if keepAlive then (st, count, [])
  else closeProcessCli st count

/-- A sequence of tracker shutdown-policy cycles, each observing the
store state and `keep_agent_alive` flag current at that cycle (external
actors may mutate the store between cycles).  Returns the final counter
and, per cycle, the store the cycle left behind and its events. -/
def trackerRun : Nat → List (Store × Bool) → Nat × List (Store × List Event)
  | count, [] => (count, [])
  | count, (st, k) :: rest =>
    match trackerStep st k count with
    | (st1, c1, ev1) =>
      match trackerRun c1 rest with
      | (cf, outs) => (cf, (st1, ev1) :: outs)

/-- Specification-side helper: a stored running record of the shape
`_start_job` writes, with both the `shell_pids` and `command_pids`
fields holding lists of integers; returns them. -/
def parseRunningRec (v : StoreVal) : Option (List Int × List Int) :=
  match v with
  | .parsed (.pydict fields) =>
    match hget fields "shell_pids", hget fields "command_pids" with
    | some sh, some cm =>
      match pyToIntList sh, pyToIntList cm with
      | .ok a, .ok b => some (a, b)
      | _, _ => none
    | _, _ => none
  | _ => none

/-- Whether an event is a component-instance spawn. -/
def Event.isSpawn : Event → Bool
  | .spawn _ _ _ _ _ => true
  | _ => false

/-- Whether an event is a spawn of the given job and component type. -/
def Event.isSpawnOf (e : Event) (job ctype : String) : Bool :=
  match e with
  | .spawn j c _ _ _ => j = job && c = ctype
  | _ => false

/-- The instance index of a spawn event (0 otherwise). -/
def Event.spawnIdx : Event → Nat
  | .spawn _ _ i _ _ => i
  | _ => 0

/-- The store states an admission passes through inside one iteration of
`_check_pending_ticket`'s admitted branch: the store is unchanged while
`_start_job` spawns processes, then the single RunningRecord `hset`
happens, then the `lrem` of the pending ticket. -/
def admissionTrace (env : Env) (cnt : Nat) (st : Store) (d : JobDetail)
    (job : String) : List Store :=
  let st1 := (startJob env cnt st d).1
  [st, st1, { st1 with pendingTickets := lrem st1.pendingTickets job }]

/-- A concrete environment for closed evaluations: the `k`-th spawn
returns shell pid `100 + k` and worker pid `200 + k`, no pid exists,
and each process is its own group leader. -/
def sampleEnv : Env :=
  ⟨fun n => (100 + n, 200 + n), fun _ => false, fun n => n⟩

/-- Fixture for C1: the job `job1` is running with one recorded shell
pid (100) and one recorded command pid (200), and one kill ticket names
it. -/
def stC1 : Store :=
  { pendingTickets := []
    killedTickets := ["job1"]
    runningJob := [("job1", .parsed (recordOf [100] [200]))]
    jobDetails := []
    parallelLevel := 2
    agentPid := 7
    agentStatus := 1 }

/-- A well-formed stored JobSpec with components
`{driver: {num 1}, worker: {num 2}}`, as the concrete scenario of the
specification uses. -/
def detailDriverWorker : PyVal :=
  .pydict
    [("name", .pystr "jobB"),
     ("components", .pydict
       [("driver", .pydict [("num", .pyint 1), ("command", .pystr "sleep 1")]),
        ("worker", .pydict [("num", .pyint 2), ("command", .pystr "sleep 1")])])]

/-- Fixture for C8: two pending tickets; the stored details of `jobA`
are malformed (unparseable), those of `jobB` are well formed; the cap
(1) is free, so `jobB` would be admitted if it were reached. -/
def stC8 : Store :=
  { pendingTickets := ["jobA", "jobB"]
    killedTickets := []
    runningJob := []
    jobDetails := [("jobA", .malformed), ("jobB", .parsed detailDriverWorker)]
    parallelLevel := 1
    agentPid := 7
    agentStatus := 1 }

/-- Total number of component instances of a JobSpec (`num` summed over
the component types, Python `range` semantics for non-positive `num`). -/
def totalInstances (comps : List (String × CompInfo)) : Nat :=
  (comps.map (fun ci => ci.2.num.toNat)).sum

/-- The parsed form of `detailDriverWorker`. -/
def detailDW : JobDetail :=
  ⟨"jobB", [("driver", ⟨1, "sleep 1"⟩), ("worker", ⟨2, "sleep 1"⟩)]⟩

/-- A store whose parallel cap (1) is already consumed by a running job
while `job1` is still pending with well-formed details. -/
def capReachedSt : Store :=
  { pendingTickets := ["job1"]
    killedTickets := []
    runningJob := [("jobX", .parsed (recordOf [1] [2]))]
    jobDetails := [("job1", .parsed detailDriverWorker)]
    parallelLevel := 1
    agentPid := 7
    agentStatus := 1 }

/-- Counterexample fixture for C5: the kill list holds a ticket for the
running job `jobA` ahead of a ticket for the pending-only job `jobB`. -/
def stC5cex : Store :=
  { pendingTickets := ["jobB"]
    killedTickets := ["jobA", "jobB"]
    runningJob := [("jobA", .parsed (recordOf [10] [11]))]
    jobDetails := []
    parallelLevel := 2
    agentPid := 7
    agentStatus := 1 }

/-- Witness fixture for the amended C5: every kill ticket ahead of
`jobB` (here `jobX`) names a non-running job, and `jobB` is only
pending. -/
def stC5w : Store :=
  { pendingTickets := ["jobB"]
    killedTickets := ["jobX", "jobB"]
    runningJob := []
    jobDetails := []
    parallelLevel := 2
    agentPid := 7
    agentStatus := 1 }

/-- A RunningRecord whose `command_pids` list exists and is empty.
`_start_job` itself never writes this shape — its zero-spawn record is
the empty dict `recordOf [] []` — but it is the only record shape with
an empty command-pid list that the tracker can reap. -/
def emptyPidsRec : PyVal :=
  .pydict [("shell_pids", .pylist []), ("command_pids", .pylist [])]

/-- Counterexample fixture for C3: `job0` carries the record
`_start_job` writes for a launch that spawned nothing (`recordOf [] []`,
i.e. `json.dumps` of an empty `defaultdict` = `{}`), and behind it sits
`job1`, a well-formed record whose only command pid is dead. -/
def stC3cex : Store :=
  { pendingTickets := []
    killedTickets := []
    runningJob := [("job0", .parsed (recordOf [] [])),
                   ("job1", .parsed (recordOf [100] [200]))]
    jobDetails := []
    parallelLevel := 2
    agentPid := 7
    agentStatus := 1 }

/-- Witness fixture for C3: one running job whose record has an empty
command-pid list. -/
def stC3w : Store :=
  { pendingTickets := []
    killedTickets := []
    runningJob := [("job1", .parsed emptyPidsRec)]
    jobDetails := []
    parallelLevel := 2
    agentPid := 7
    agentStatus := 1 }

/-- The emptiness condition `_close_process_cli` tests: zero fields in
the running-job hash and zero entries in the pending-ticket list. -/
def storeIdle (s : Store) : Prop :=
  s.runningJob.length = 0 ∧ s.pendingTickets.length = 0

/-- A store with no pending ticket and no running job. -/
def idleSt : Store :=
  { pendingTickets := []
    killedTickets := []
    runningJob := []
    jobDetails := []
    parallelLevel := 2
    agentPid := 7
    agentStatus := 1 }

/-- A store with one pending ticket (so not idle). -/
def busySt : Store :=
  { pendingTickets := ["p"]
    killedTickets := []
    runningJob := []
    jobDetails := []
    parallelLevel := 2
    agentPid := 7
    agentStatus := 1 }

/-- Witness fixture for C9: `jobB` is pending with well-formed details
and the cap (1) is free, so the scheduler admits it. -/
def stC9w : Store :=
  { pendingTickets := ["jobB"]
    killedTickets := []
    runningJob := []
    jobDetails := [("jobB", .parsed detailDriverWorker)]
    parallelLevel := 1
    agentPid := 7
    agentStatus := 1 }

end JobAgent

namespace JobAgent

/-- Claim C1 (code bug): a kill ticket for the running job `job1`,
whose RunningRecord holds shell pid 100 and command pid 200, does not
behave as claimed: `_stop_job` iterates the parsed record dict itself,
so its first loop element is the string key "shell_pids" and
`os.getpgid` raises a TypeError.  The kill-processor cycle aborts
having sent no termination signal, with the RunningRecord still in the
running-job hash and the kill ticket still in the kill-ticket list. -/
theorem c1_kill_ticket_running_job_cycle_raises :
    (checkKillTicket sampleEnv stC1).err = some PyErr.typeError ∧
    (checkKillTicket sampleEnv stC1).events = [] ∧
    hexists (checkKillTicket sampleEnv stC1).store.runningJob "job1" = true ∧
    (checkKillTicket sampleEnv stC1).store.killedTickets = ["job1"] :=
  ⟨rfl, rfl, rfl, rfl⟩

theorem hset_length_le {α : Type} (m : List (String × α)) (k : String) (v : α) :
    (hset m k v).length ≤ m.length + 1 := by
  unfold hset
  split
  · simp
  · simp

theorem startJob_runningJob (env : Env) (cnt : Nat) (st : Store) (d : JobDetail) :
    ∃ w, (startJob env cnt st d).1.runningJob = hset st.runningJob d.name w :=
  ⟨_, rfl⟩

theorem stepPending_parallelLevel (env : Env) (st : Store) (ev : List Event)
    (cnt : Nat) (job : String) :
    (stepPending env st ev cnt job).store.parallelLevel = st.parallelLevel := by
  unfold stepPending
  split
  · rfl
  · split
    · rfl
    · split
      · split
        · rfl
        · rfl
      · rfl

theorem stepPending_cap (env : Env) (st : Store) (ev : List Event) (cnt : Nat)
    (job : String) (h : (st.runningJob.length : Int) ≤ st.parallelLevel) :
    ((stepPending env st ev cnt job).store.runningJob.length : Int) ≤
      st.parallelLevel := by
  unfold stepPending
  split
  · exact h
  · split
    · exact h
    · split
      · rename_i hlt
        split
        · exact h
        · rename_i d hd
          obtain ⟨w, hw⟩ := startJob_runningJob env cnt st d
          show (((startJob env cnt st d).1.runningJob.length : Int) ≤ _)
          rw [hw]
          have hle := hset_length_le st.runningJob d.name w
          omega
      · exact h

/-- Claim C2: in a single scheduler instance, the running-job hash never
grows past `parallel_level`.  `checkPendingFrom` over an arbitrary job
list covers every prefix of a cycle's pending-ticket snapshot, hence
every state observed right after an admission decision; each iteration
re-reads the running count and the cap and admits only when
`count < cap`, so `count ≤ cap` is invariant. -/
theorem c2_admission_respects_parallel_level (env : Env) (st : Store)
    (ev : List Event) (cnt : Nat) (jobs : List String)
    (h : (st.runningJob.length : Int) ≤ st.parallelLevel) :
    ((checkPendingFrom env st ev cnt jobs).store.runningJob.length : Int) ≤
      (checkPendingFrom env st ev cnt jobs).store.parallelLevel := by
  induction jobs generalizing st ev cnt with
  | nil => simpa [checkPendingFrom] using h
  | cons j rest ih =>
    have h1 := stepPending_cap env st ev cnt j h
    have h2 := stepPending_parallelLevel env st ev cnt j
    unfold checkPendingFrom
    split
    next st1 ev1 cnt1 e heq =>
      rw [heq] at h1 h2
      show (st1.runningJob.length : Int) ≤ st1.parallelLevel
      rw [h2]
      exact h1
    next st1 ev1 cnt1 heq =>
      rw [heq] at h1 h2
      exact ih st1 ev1 cnt1 (by rw [h2]; exact h1)

/-- Witness for C2: with one running job and `parallel_level = 1`, the
bound holds before the cycle and still holds after it. -/
theorem c2_witness :
    ((capReachedSt.runningJob.length : Int) ≤ capReachedSt.parallelLevel) ∧
    ((checkPendingFrom sampleEnv capReachedSt [] 0 ["job1"]).store.runningJob.length : Int) ≤
      (checkPendingFrom sampleEnv capReachedSt [] 0 ["job1"]).store.parallelLevel :=
  ⟨by decide,
   c2_admission_respects_parallel_level sampleEnv capReachedSt [] 0 ["job1"] (by decide)⟩

theorem stepPending_at_cap (env : Env) (st : Store) (ev : List Event)
    (cnt : Nat) (job : String)
    (hcap : st.parallelLevel ≤ (st.runningJob.length : Int)) :
    (stepPending env st ev cnt job).store = st ∧
    (stepPending env st ev cnt job).events = ev ∧
    (stepPending env st ev cnt job).spawnCount = cnt := by
  unfold stepPending
  split
  · exact ⟨rfl, rfl, rfl⟩
  · split
    · exact ⟨rfl, rfl, rfl⟩
    · split
      · rename_i hlt
        exact absurd hlt (not_lt.mpr hcap)
      · exact ⟨rfl, rfl, rfl⟩

theorem stepPending_at_cap_loaded (env : Env) (st : Store) (ev : List Event)
    (cnt : Nat) (job : String) (sv : StoreVal) (dv : PyVal)
    (hsv : hget st.jobDetails job = some sv)
    (hld : jsonLoads sv = .ok dv)
    (hcap : st.parallelLevel ≤ (st.runningJob.length : Int)) :
    stepPending env st ev cnt job = ⟨st, ev, cnt, none⟩ := by
  unfold stepPending
  simp only [hsv, hld, if_neg (not_lt.mpr hcap)]

/-- Claim C7: when the parallel cap is already reached at the moment a
pending ticket is examined, the ticket is neither spawned nor removed —
in fact the whole remainder of the cycle leaves the store and the event
log untouched, since the running count can only have grown — and, as
long as the examined ticket's stored details load, the cycle moves on to
re-evaluate the remaining tickets in list order. -/
theorem c7_cap_reached_leaves_tickets (env : Env) (st : Store)
    (ev : List Event) (cnt : Nat)
    (hcap : st.parallelLevel ≤ (st.runningJob.length : Int)) :
    (∀ jobs : List String,
      (checkPendingFrom env st ev cnt jobs).store = st ∧
      (checkPendingFrom env st ev cnt jobs).events = ev) ∧
    (∀ (job : String) (rest : List String) (sv : StoreVal) (dv : PyVal),
      hget st.jobDetails job = some sv → jsonLoads sv = .ok dv →
      checkPendingFrom env st ev cnt (job :: rest) =
        checkPendingFrom env st ev cnt rest) := by
  constructor
  · intro jobs
    induction jobs with
    | nil => exact ⟨rfl, rfl⟩
    | cons j rest ih =>
      have h3 := stepPending_at_cap env st ev cnt j hcap
      unfold checkPendingFrom
      split
      next st1 ev1 cnt1 e heq =>
        rw [heq] at h3
        exact ⟨h3.1, h3.2.1⟩
      next st1 ev1 cnt1 heq =>
        rw [heq] at h3
        obtain ⟨e1, e2, e3⟩ := h3
        subst e1; subst e2; subst e3
        exact ih
  · intro job rest sv dv hsv hld
    have hstep := stepPending_at_cap_loaded env st ev cnt job sv dv hsv hld hcap
    have hu : checkPendingFrom env st ev cnt (job :: rest) =
        match stepPending env st ev cnt job with
        | ⟨st1, ev1, cnt1, some e⟩ => ⟨st1, ev1, cnt1, some e⟩
        | ⟨st1, ev1, cnt1, none⟩ => checkPendingFrom env st1 ev1 cnt1 rest := rfl
    rw [hu, hstep]

/-- Witness for C7: with the cap (1) consumed by a running job, the
cycle over the single pending ticket `job1` changes nothing and the
cons-step is the identity on the remaining ticket list. -/
theorem c7_witness :
    (capReachedSt.parallelLevel ≤ (capReachedSt.runningJob.length : Int)) ∧
    (checkPendingFrom sampleEnv capReachedSt [] 0 ["job1"]).store = capReachedSt ∧
    (checkPendingFrom sampleEnv capReachedSt [] 0 ["job1"]).events = [] ∧
    checkPendingFrom sampleEnv capReachedSt [] 0 ["job1"] =
      checkPendingFrom sampleEnv capReachedSt [] 0 [] := by
  refine ⟨by decide, ?_, ?_, ?_⟩
  · exact ((c7_cap_reached_leaves_tickets sampleEnv capReachedSt [] 0 (by decide)).1 ["job1"]).1
  · exact ((c7_cap_reached_leaves_tickets sampleEnv capReachedSt [] 0 (by decide)).1 ["job1"]).2
  · exact (c7_cap_reached_leaves_tickets sampleEnv capReachedSt [] 0 (by decide)).2
      "job1" [] (.parsed detailDriverWorker) detailDriverWorker rfl rfl

/-- Claim C8 (code bug): a scheduler poll cycle has no per-job error
isolation.  With pending tickets `[jobA, jobB]` where the stored details
of `jobA` are malformed, `json.loads` raises on `jobA` and the whole
cycle aborts: `jobB` is neither examined nor admitted (no spawn event,
no RunningRecord write), and both tickets stay in the pending list —
contradicting the claim that every other job in the cycle is still
processed. -/
theorem c8_malformed_record_aborts_cycle :
    (checkPendingTicket sampleEnv 0 stC8).err = some PyErr.jsonDecodeError ∧
    (checkPendingTicket sampleEnv 0 stC8).events = [] ∧
    (checkPendingTicket sampleEnv 0 stC8).store.pendingTickets = ["jobA", "jobB"] ∧
    (checkPendingTicket sampleEnv 0 stC8).store.runningJob = [] :=
  ⟨rfl, rfl, rfl, rfl⟩

theorem trackerStep_idle (s : Store) (c : Nat) (h : storeIdle s) :
    trackerStep s false c =
      if 5 ≤ c + 1 then
        ({ s with agentStatus := 0 }, c + 1, [Event.closeAgentTree s.agentPid])
      else (s, c + 1, []) := by
  unfold storeIdle at h
  show closeProcessCli s c = _
  unfold closeProcessCli
  rw [if_pos h]

theorem trackerStep_idle_low (s : Store) (c : Nat) (h : storeIdle s)
    (hc : c + 1 < 5) : trackerStep s false c = (s, c + 1, []) := by
  rw [trackerStep_idle s c h, if_neg (by omega)]

theorem trackerStep_idle_fire (s : Store) (c : Nat) (h : storeIdle s)
    (hc : 5 ≤ c + 1) :
    trackerStep s false c =
      ({ s with agentStatus := 0 }, c + 1, [Event.closeAgentTree s.agentPid]) := by
  rw [trackerStep_idle s c h, if_pos hc]

/-- Claim C4: starting from a zero counter, five consecutive tracker
cycles that each observe an empty running hash and an empty pending
list with `keep_agent_alive` unset count 1,2,3,4,5; the fifth reaches
the threshold and terminates the master process tree via the stored
`agent_pid` (recursively, `close_by_pid(pid=agent_pid, recursive=True)`)
and sets `agent_status` to 0 — and a cycle observing a non-empty
pending list or running hash resets the counter to zero. -/
theorem c4_idle_shutdown_after_five_cycles :
    (∀ s1 s2 s3 s4 s5 : Store,
      storeIdle s1 → storeIdle s2 → storeIdle s3 → storeIdle s4 → storeIdle s5 →
      trackerRun 0 [(s1, false), (s2, false), (s3, false), (s4, false), (s5, false)] =
        (5, [(s1, []), (s2, []), (s3, []), (s4, []),
             ({ s5 with agentStatus := 0 }, [Event.closeAgentTree s5.agentPid])])) ∧
    (∀ (s : Store) (c : Nat), ¬ storeIdle s → trackerStep s false c = (s, 0, [])) := by
  constructor
  · intro s1 s2 s3 s4 s5 h1 h2 h3 h4 h5
    simp only [trackerRun,
      trackerStep_idle_low s1 0 h1 (by omega),
      trackerStep_idle_low s2 1 h2 (by omega),
      trackerStep_idle_low s3 2 h3 (by omega),
      trackerStep_idle_low s4 3 h4 (by omega),
      trackerStep_idle_fire s5 4 h5 (by omega)]
  · intro s c h
    unfold storeIdle at h
    show closeProcessCli s c = (s, 0, [])
    unfold closeProcessCli
    rw [if_neg h]
    rfl

/-- Witness for C4: five idle cycles from counter 0 fire the shutdown on
the fifth, and a cycle seeing a pending ticket resets the counter. -/
theorem c4_witness :
    trackerRun 0 [(idleSt, false), (idleSt, false), (idleSt, false),
        (idleSt, false), (idleSt, false)] =
      (5, [(idleSt, []), (idleSt, []), (idleSt, []), (idleSt, []),
           ({ idleSt with agentStatus := 0 }, [Event.closeAgentTree idleSt.agentPid])]) ∧
    trackerStep busySt false 3 = (busySt, 0, []) :=
  ⟨c4_idle_shutdown_after_five_cycles.1 idleSt idleSt idleSt idleSt idleSt
      ⟨rfl, rfl⟩ ⟨rfl, rfl⟩ ⟨rfl, rfl⟩ ⟨rfl, rfl⟩ ⟨rfl, rfl⟩,
   c4_idle_shutdown_after_five_cycles.2 busySt 3 (by simp [storeIdle, busySt])⟩

/-- Claim C10: a tracker cycle that observes `keep_agent_alive` set
skips `_close_process_cli` entirely, so the shutdown counter is neither
incremented nor reset (and nothing is terminated); once the flag is
cleared during an idle period the counter resumes from the accumulated
value `c` to `c + 1` rather than restarting from zero. -/
theorem c10_keep_alive_freezes_counter :
    (∀ (st : Store) (c : Nat), trackerStep st true c = (st, c, [])) ∧
    (∀ (st : Store) (c : Nat), storeIdle st →
      (trackerStep st false c).2.1 = c + 1) := by
  constructor
  · intro st c
    rfl
  · intro st c h
    rw [trackerStep_idle st c h]
    split
    · rfl
    · rfl

/-- Witness for C10: with the flag set the counter stays at 3 over an
idle store; once cleared, the next idle cycle counts 4. -/
theorem c10_witness :
    trackerStep idleSt true 3 = (idleSt, 3, []) ∧
    (trackerStep idleSt false 3).2.1 = 4 :=
  ⟨c10_keep_alive_freezes_counter.1 idleSt 3,
   c10_keep_alive_freezes_counter.2 idleSt 3 ⟨rfl, rfl⟩⟩

theorem hexists_hset_self {α : Type} (m : List (String × α)) (k : String)
    (v : α) : hexists (hset m k v) k = true := by
  unfold hexists hset
  split
  · rename_i h
    rw [List.any_eq_true] at h ⊢
    obtain ⟨x, hx, hk⟩ := h
    refine ⟨(k, v), List.mem_map.mpr ⟨x, hx, ?_⟩, by simp⟩
    simp only [decide_eq_true_eq] at hk
    simp [hk]
  · simp

theorem stepPending_admitted (env : Env) (st : Store) (ev : List Event)
    (cnt : Nat) (job : String) (sv : StoreVal) (dv : PyVal) (d : JobDetail)
    (hsv : hget st.jobDetails job = some sv)
    (hld : jsonLoads sv = .ok dv)
    (hparse : parseDetail dv = some d)
    (hcap : (st.runningJob.length : Int) < st.parallelLevel) :
    stepPending env st ev cnt job =
      ⟨{ (startJob env cnt st d).1 with
           pendingTickets := lrem (startJob env cnt st d).1.pendingTickets job },
       ev ++ (startJob env cnt st d).2.1, (startJob env cnt st d).2.2, none⟩ := by
  unfold stepPending
  simp only [hsv, hld, hparse, if_pos hcap]

/-- Claim C9: during an admission the scheduler writes the job's
RunningRecord (the `hset` inside `_start_job`) before it removes the
pending ticket (the `lrem` that follows), so across the three store
states an admission passes through — unchanged during spawning, after
the record write, after the ticket removal — the job is always present
in the pending list or in the running hash (transiently in both, never
in neither); the last trace state is exactly the state the scheduler
iteration ends in. -/
theorem c9_admission_never_loses_job (env : Env) (cnt : Nat) (st : Store)
    (ev : List Event) (d : JobDetail) (job : String) (sv : StoreVal) (dv : PyVal)
    (hmem : job ∈ st.pendingTickets)
    (hsv : hget st.jobDetails job = some sv)
    (hld : jsonLoads sv = .ok dv)
    (hparse : parseDetail dv = some d)
    (hname : d.name = job)
    (hcap : (st.runningJob.length : Int) < st.parallelLevel) :
    (∃ mid : Store,
      admissionTrace env cnt st d job =
        [st, mid, (stepPending env st ev cnt job).store]) ∧
    ∀ s ∈ admissionTrace env cnt st d job,
      job ∈ s.pendingTickets ∨ hexists s.runningJob job = true := by
  constructor
  · refine ⟨(startJob env cnt st d).1, ?_⟩
    rw [stepPending_admitted env st ev cnt job sv dv d hsv hld hparse hcap]
    rfl
  · intro s hs
    rw [admissionTrace, List.mem_cons, List.mem_cons, List.mem_singleton] at hs
    rcases hs with h | h | h
    · subst h
      exact Or.inl hmem
    · subst h
      exact Or.inl hmem
    · subst h
      right
      obtain ⟨w, hw⟩ := startJob_runningJob env cnt st d
      show hexists (startJob env cnt st d).1.runningJob job = true
      rw [hw, ← hname]
      exact hexists_hset_self st.runningJob d.name w

theorem not_mem_lrem_self (l : List String) (v : String) : v ∉ lrem l v := by
  simp [lrem, List.mem_filter]

theorem not_mem_lrem (l : List String) (v x : String) (h : x ∉ l) :
    x ∉ lrem l v :=
  fun hx => h (List.mem_filter.mp hx).1

theorem hexists_hdel_false {α : Type} (m : List (String × α)) (k x : String)
    (h : hexists m x = false) : hexists (hdel m k) x = false := by
  unfold hexists at h ⊢
  unfold hdel
  rw [List.any_eq_false] at h ⊢
  intro kv hkv
  exact h kv (List.mem_filter.mp hkv).1

theorem stepKill_not_running (env : Env) (st : Store) (ev : List Event)
    (job : String) (h : hexists st.runningJob job = false) :
    stepKill env st ev job =
      ⟨{ st with pendingTickets := lrem st.pendingTickets job,
                 killedTickets := lrem st.killedTickets job }, ev, none⟩ := by
  unfold stepKill
  simp [h]

theorem stopJob_fields (env : Env) (st : Store) (ev : List Event)
    (job : String) (pidList : PyVal) :
    (stopJob env st ev job pidList).store.pendingTickets = st.pendingTickets ∧
    (stopJob env st ev job pidList).store.killedTickets = st.killedTickets ∧
    ∀ x, hexists st.runningJob x = false →
      hexists (stopJob env st ev job pidList).store.runningJob x = false := by
  unfold stopJob
  split
  · exact ⟨rfl, rfl, fun x h => h⟩
  · split
    · exact ⟨rfl, rfl, fun x h => h⟩
    · exact ⟨rfl, rfl, fun x h => hexists_hdel_false st.runningJob job x h⟩

theorem stepKill_preserves (env : Env) (st : Store) (ev : List Event)
    (job x : String) :
    (x ∉ st.pendingTickets → x ∉ (stepKill env st ev job).store.pendingTickets) ∧
    (x ∉ st.killedTickets → x ∉ (stepKill env st ev job).store.killedTickets) ∧
    (hexists st.runningJob x = false →
      hexists (stepKill env st ev job).store.runningJob x = false) := by
  unfold stepKill
  split
  · split
    · exact ⟨id, id, id⟩
    · split
      · exact ⟨id, id, id⟩
      · rename_i sv hsv pl hpl
        split
        next st1 ev1 e heq =>
          have hf := stopJob_fields env st ev job pl
          rw [heq] at hf
          exact ⟨fun h => hf.1 ▸ h, fun h => hf.2.1 ▸ h, fun h => hf.2.2 x h⟩
        next st1 ev1 heq =>
          have hf := stopJob_fields env st ev job pl
          rw [heq] at hf
          refine ⟨fun h => ?_, fun h => ?_, fun h => hf.2.2 x h⟩
          · show x ∉ st1.pendingTickets
            exact hf.1 ▸ h
          · show x ∉ lrem st1.killedTickets job
            exact not_mem_lrem st1.killedTickets job x (hf.2.1 ▸ h)
  · refine ⟨fun h => ?_, fun h => ?_, fun h => h⟩
    · exact not_mem_lrem st.pendingTickets job x h
    · exact not_mem_lrem st.killedTickets job x h

theorem checkKillFrom_preserves (env : Env) (snap : List String) :
    ∀ (st : Store) (ev : List Event) (x : String),
    (x ∉ st.pendingTickets →
      x ∉ (checkKillFrom env st ev snap).store.pendingTickets) ∧
    (x ∉ st.killedTickets →
      x ∉ (checkKillFrom env st ev snap).store.killedTickets) ∧
    (hexists st.runningJob x = false →
      hexists (checkKillFrom env st ev snap).store.runningJob x = false) := by
  induction snap with
  | nil => exact fun st ev x => ⟨id, id, id⟩
  | cons j rest ih =>
    intro st ev x
    have hp := stepKill_preserves env st ev j x
    unfold checkKillFrom
    split
    next st1 ev1 e heq =>
      rw [heq] at hp
      exact hp
    next st1 ev1 heq =>
      rw [heq] at hp
      have hr := ih st1 ev1 x
      exact ⟨fun h => hr.1 (hp.1 h), fun h => hr.2.1 (hp.2.1 h),
             fun h => hr.2.2 (hp.2.2 h)⟩

theorem killPids_events_spawnFree (env : Env) :
    ∀ (items : List PyVal) (ev : List Event),
    (∀ e ∈ ev, e.isSpawn = false) →
    ∀ e ∈ (killPids env ev items).1, e.isSpawn = false := by
  intro items
  induction items with
  | nil => exact fun ev h => h
  | cons p rest ih =>
    intro ev h
    unfold killPids
    split
    · exact h
    · refine ih _ (fun e he => ?_)
      rcases List.mem_append.mp he with h1 | h1
      · exact h e h1
      · rw [List.mem_singleton.mp h1]
        rfl

theorem stepKill_events_spawnFree (env : Env) (st : Store) (ev : List Event)
    (job : String) (h : ∀ e ∈ ev, e.isSpawn = false) :
    ∀ e ∈ (stepKill env st ev job).events, e.isSpawn = false := by
  have hstop : ∀ pidList, ∀ e ∈ (stopJob env st ev job pidList).events,
      e.isSpawn = false := by
    intro pidList
    unfold stopJob
    split
    · exact h
    · rename_i items hit
      split
      next ev1 e1 heq =>
        have hk := killPids_events_spawnFree env items ev h
        rw [heq] at hk
        exact hk
      next ev1 heq =>
        have hk := killPids_events_spawnFree env items ev h
        rw [heq] at hk
        exact hk
  unfold stepKill
  split
  · split
    · exact h
    · split
      · exact h
      · rename_i sv hsv pl hpl
        split
        next st1 ev1 e heq =>
          have hs := hstop pl
          rw [heq] at hs
          exact hs
        next st1 ev1 heq =>
          have hs := hstop pl
          rw [heq] at hs
          exact hs
  · exact h

theorem checkKillFrom_events_spawnFree (env : Env) (snap : List String) :
    ∀ (st : Store) (ev : List Event),
    (∀ e ∈ ev, e.isSpawn = false) →
    ∀ e ∈ (checkKillFrom env st ev snap).events, e.isSpawn = false := by
  induction snap with
  | nil => exact fun st ev h => h
  | cons j rest ih =>
    intro st ev h
    have hp := stepKill_events_spawnFree env st ev j h
    unfold checkKillFrom
    split
    next st1 ev1 e heq =>
      rw [heq] at hp
      exact hp
    next st1 ev1 heq =>
      rw [heq] at hp
      exact ih st1 ev1 hp

/-- Counterexample for C5: the kill list is `[jobA, jobB]` where `jobA`
is running and `jobB` only pending.  The cycle raises a TypeError while
stopping `jobA` (the `_stop_job` dict-iteration defect) before it ever
examines `jobB`, so `jobB`'s pending ticket is not removed and its kill
ticket stays — the claim's universally quantified conclusion fails. -/
theorem c5_counterexample_running_ticket_ahead :
    (checkKillTicket sampleEnv stC5cex).err = some PyErr.typeError ∧
    "jobB" ∈ (checkKillTicket sampleEnv stC5cex).store.pendingTickets ∧
    "jobB" ∈ (checkKillTicket sampleEnv stC5cex).store.killedTickets :=
  ⟨rfl, by decide, by decide⟩

/-- Claim C5 (amended): for every kill ticket naming a job with no
RunningRecord, provided every kill ticket processed earlier in the same
cycle also names a non-running job (a ticket for a running job raises
inside `_stop_job` and aborts the cycle), the kill-processor cycle
removes every matching pending ticket, removes the kill ticket, and
never spawns the job (no spawn event is ever emitted). -/
theorem c5_amended_pending_only_kill (env : Env) (st : Store) (job : String)
    (pre post : List String)
    (hsnap : st.killedTickets = pre ++ job :: post)
    (hpre : ∀ k ∈ pre, hexists st.runningJob k = false)
    (hjob : hexists st.runningJob job = false) :
    job ∉ (checkKillTicket env st).store.pendingTickets ∧
    job ∉ (checkKillTicket env st).store.killedTickets ∧
    ∀ e ∈ (checkKillTicket env st).events, e.isSpawn = false := by
  have main : ∀ (pre1 : List String) (st1 : Store) (ev1 : List Event),
      (∀ k ∈ pre1, hexists st1.runningJob k = false) →
      hexists st1.runningJob job = false →
      job ∉ (checkKillFrom env st1 ev1 (pre1 ++ job :: post)).store.pendingTickets ∧
      job ∉ (checkKillFrom env st1 ev1 (pre1 ++ job :: post)).store.killedTickets := by
    intro pre1
    induction pre1 with
    | nil =>
      intro st1 ev1 _ hj
      have hstep := stepKill_not_running env st1 ev1 job hj
      have hu0 : checkKillFrom env st1 ev1 (job :: post) =
          match stepKill env st1 ev1 job with
          | ⟨s2, e2, some e⟩ => ⟨s2, e2, some e⟩
          | ⟨s2, e2, none⟩ => checkKillFrom env s2 e2 post := rfl
      have hu : checkKillFrom env st1 ev1 ([] ++ job :: post) =
          checkKillFrom env
            { st1 with pendingTickets := lrem st1.pendingTickets job,
                       killedTickets := lrem st1.killedTickets job } ev1 post := by
        show checkKillFrom env st1 ev1 (job :: post) = _
        rw [hu0, hstep]
      rw [hu]
      have hpres := checkKillFrom_preserves env post
        { st1 with pendingTickets := lrem st1.pendingTickets job,
                   killedTickets := lrem st1.killedTickets job } ev1 job
      exact ⟨hpres.1 (not_mem_lrem_self st1.pendingTickets job),
             hpres.2.1 (not_mem_lrem_self st1.killedTickets job)⟩
    | cons k pre2 ih =>
      intro st1 ev1 hp hj
      have hstep := stepKill_not_running env st1 ev1 k (hp k (List.mem_cons_self k pre2))
      have hu0 : checkKillFrom env st1 ev1 (k :: (pre2 ++ job :: post)) =
          match stepKill env st1 ev1 k with
          | ⟨s2, e2, some e⟩ => ⟨s2, e2, some e⟩
          | ⟨s2, e2, none⟩ => checkKillFrom env s2 e2 (pre2 ++ job :: post) := rfl
      have hu : checkKillFrom env st1 ev1 ((k :: pre2) ++ job :: post) =
          checkKillFrom env
            { st1 with pendingTickets := lrem st1.pendingTickets k,
                       killedTickets := lrem st1.killedTickets k } ev1
            (pre2 ++ job :: post) := by
        show checkKillFrom env st1 ev1 (k :: (pre2 ++ job :: post)) = _
        rw [hu0, hstep]
      rw [hu]
      exact ih _ ev1 (fun k2 hk2 => hp k2 (List.mem_cons_of_mem k hk2)) hj
  have hm := main pre st [] hpre hjob
  unfold checkKillTicket
  rw [hsnap]
  exact ⟨hm.1, hm.2,
    checkKillFrom_events_spawnFree env (pre ++ job :: post) st []
      (fun e he => absurd he (List.not_mem_nil e))⟩

/-- Witness for the amended C5: with kill tickets `[jobX, jobB]` where
neither is running and `jobB` is pending, the cycle removes `jobB` from
the pending list and the kill list and spawns nothing. -/
theorem c5_witness :
    "jobB" ∉ (checkKillTicket sampleEnv stC5w).store.pendingTickets ∧
    "jobB" ∉ (checkKillTicket sampleEnv stC5w).store.killedTickets ∧
    ∀ e ∈ (checkKillTicket sampleEnv stC5w).events, e.isSpawn = false :=
  c5_amended_pending_only_kill sampleEnv stC5w "jobB" ["jobX"] [] rfl
    (by decide) rfl

theorem pyToIntList_inv (v : PyVal) (l : List Int)
    (h : pyToIntList v = .ok l) : ∃ xs, v = .pylist xs ∧ pyInts xs = .ok l := by
  unfold pyToIntList at h
  split at h
  next xs => exact ⟨xs, rfl, h⟩
  next => exact Except.noConfusion h

theorem parseRunningRec_inv (v : StoreVal) (sh cm : List Int)
    (hp : parseRunningRec v = some (sh, cm)) :
    ∃ fields shxs cmxs,
      v = .parsed (.pydict fields) ∧
      hget fields "shell_pids" = some (.pylist shxs) ∧
      hget fields "command_pids" = some (.pylist cmxs) ∧
      pyInts shxs = .ok sh ∧ pyInts cmxs = .ok cm := by
  unfold parseRunningRec at hp
  split at hp
  next fields =>
    split at hp
    next shv cmv hsh hcm =>
      split at hp
      next a b ha hb =>
        rw [Option.some.injEq, Prod.mk.injEq] at hp
        obtain ⟨rfl, rfl⟩ := hp
        obtain ⟨shxs, rfl, hsh2⟩ := pyToIntList_inv shv a ha
        obtain ⟨cmxs, rfl, hcm2⟩ := pyToIntList_inv cmv b hb
        exact ⟨fields, shxs, cmxs, rfl, hsh, hcm, hsh2, hcm2⟩
      next => exact Option.noConfusion hp
    next => exact Option.noConfusion hp
  next => exact Option.noConfusion hp

theorem pyIndex_of_hget (fields : List (String × PyVal)) (k : String)
    (w : PyVal) (h : hget fields k = some w) :
    pyIndex (.pydict fields) k = .ok w := by
  unfold hget at h
  show (match fields.find? (fun kv => kv.1 = k) with
        | some kv => Except.ok kv.2
        | none => Except.error (PyErr.keyError k)) = Except.ok w
  cases hf : fields.find? (fun kv => kv.1 = k) with
  | none => rw [hf] at h; exact Option.noConfusion h
  | some kv =>
    rw [hf] at h
    simp only [Option.map_some', Option.some.injEq] at h
    show Except.ok kv.2 = Except.ok w
    rw [h]

theorem anyAlive_of_pyInts (env : Env) :
    ∀ (xs : List PyVal) (l : List Int), pyInts xs = .ok l →
    anyAlive env xs = .ok (l.any env.pidExists) := by
  intro xs
  induction xs with
  | nil =>
    intro l h
    unfold pyInts at h
    injection h with h1
    subst h1
    rfl
  | cons p rest ih =>
    intro l h
    unfold pyInts at h
    split at h
    · exact Except.noConfusion h
    · rename_i n hn
      split at h
      · exact Except.noConfusion h
      · rename_i ns hns
        injection h with h1
        subst h1
        unfold anyAlive
        rw [hn, ih ns hns]
        simp

theorem hexists_hdel_self {α : Type} (m : List (String × α)) (k : String) :
    hexists (hdel m k) k = false := by
  unfold hexists hdel
  rw [List.any_eq_false]
  intro kv hkv
  have h2 := (List.mem_filter.mp hkv).2
  simp only [decide_not, Bool.not_eq_true', decide_eq_false_iff_not] at h2
  simp [h2]

theorem hget_cons_pos {α : Type} (kv : String × α) (m : List (String × α))
    (x : String) (h : kv.1 = x) : hget (kv :: m) x = some kv.2 := by
  unfold hget
  rw [List.find?_cons_of_pos _ (by simp [h])]
  rfl

theorem hget_cons_neg {α : Type} (kv : String × α) (m : List (String × α))
    (x : String) (h : ¬ kv.1 = x) : hget (kv :: m) x = hget m x := by
  unfold hget
  rw [List.find?_cons_of_neg _ (by simp [h])]

theorem hdel_cons_pos {α : Type} (kv : String × α) (m : List (String × α))
    (k : String) (h : kv.1 = k) : hdel (kv :: m) k = hdel m k := by
  unfold hdel
  rw [List.filter_cons_of_neg (by simp [h])]

theorem hdel_cons_neg {α : Type} (kv : String × α) (m : List (String × α))
    (k : String) (h : ¬ kv.1 = k) : hdel (kv :: m) k = kv :: hdel m k := by
  unfold hdel
  rw [List.filter_cons_of_pos (by simp [h])]

theorem hget_hdel_ne {α : Type} (m : List (String × α)) (k x : String)
    (hne : k ≠ x) : hget (hdel m k) x = hget m x := by
  induction m with
  | nil => rfl
  | cons kv m ih =>
    by_cases hk : kv.1 = k
    · rw [hdel_cons_pos kv m k hk, ih,
        hget_cons_neg kv m x (fun hc => hne (hk.symm.trans hc))]
    · rw [hdel_cons_neg kv m k hk]
      by_cases hx : kv.1 = x
      · rw [hget_cons_pos kv (hdel m k) x hx, hget_cons_pos kv m x hx]
      · rw [hget_cons_neg kv (hdel m k) x hx, hget_cons_neg kv m x hx, ih]

theorem mem_eq_of_nodup_keys {α : Type} (m : List (String × α)) (k : String)
    (v : α) (hnd : (m.map Prod.fst).Nodup) (hmem : (k, v) ∈ m) :
    ∀ e ∈ m, e.1 = k → e = (k, v) := by
  induction m with
  | nil => exact fun e he => absurd he (List.not_mem_nil e)
  | cons kv m ih =>
    rw [List.map_cons, List.nodup_cons] at hnd
    intro e he hek
    rcases List.mem_cons.mp hmem with h1 | h1
    · rcases List.mem_cons.mp he with h2 | h2
      · rw [h2, ← h1]
      · exfalso
        apply hnd.1
        rw [← h1]
        show k ∈ m.map Prod.fst
        rw [← hek]
        exact List.mem_map.mpr ⟨e, h2, rfl⟩
    · rcases List.mem_cons.mp he with h2 | h2
      · exfalso
        apply hnd.1
        rw [← h2, hek]
        exact List.mem_map.mpr ⟨(k, v), h1, rfl⟩
      · exact ih hnd.2 h1 e h2 hek

theorem hget_eq_of_mem {α : Type} (m : List (String × α)) (k : String) (v : α)
    (hmem : (k, v) ∈ m) (hone : ∀ e ∈ m, e.1 = k → e = (k, v)) :
    hget m k = some v := by
  induction m with
  | nil => exact absurd hmem (List.not_mem_nil _)
  | cons kv m ih =>
    by_cases hk : kv.1 = k
    · have hkv : kv = (k, v) := hone kv (List.mem_cons_self kv m) hk
      rw [hget_cons_pos kv m k hk, hkv]
    · rw [hget_cons_neg kv m k hk]
      have hmem2 : (k, v) ∈ m := by
        rcases List.mem_cons.mp hmem with h1 | h1
        · exact absurd (by rw [← h1]) hk
        · exact h1
      exact ih hmem2 (fun e he => hone e (List.mem_cons_of_mem kv he))

/-- A well-formed tracker iteration: on an entry whose stored value
parses as a RunningRecord with integer pid lists, `stepTrack` either
leaves the store untouched (some command pid exists) or deletes the job
and closes its shell pids (none does). -/
theorem stepTrack_wf (env : Env) (st : Store) (ev : List Event)
    (entry : String × StoreVal) (sh cm : List Int)
    (hp : parseRunningRec entry.2 = some (sh, cm)) :
    stepTrack env st ev entry =
      if cm.any env.pidExists then ⟨st, ev, none⟩
      else ⟨{ st with runningJob := hdel st.runningJob entry.1 },
            ev ++ [.closePids sh], none⟩ := by
  obtain ⟨fields, shxs, cmxs, hv, hsh, hcm, hsh2, hcm2⟩ :=
    parseRunningRec_inv entry.2 sh cm hp
  have hcmI := pyIndex_of_hget fields "command_pids" _ hcm
  have hshI := pyIndex_of_hget fields "shell_pids" _ hsh
  have hAny := anyAlive_of_pyInts env cmxs cm hcm2
  cases ha : cm.any env.pidExists
  · rw [ha] at hAny
    simp only [stepTrack, hv, jsonLoads, hcmI, pyIter, hAny, hshI,
      pyToIntList, hsh2, if_neg (Bool.false_ne_true)]
  · rw [ha] at hAny
    simp only [stepTrack, hv, jsonLoads, hcmI, pyIter, hAny, ha, if_true]

theorem stepTrack_wf_alive (env : Env) (st : Store) (ev : List Event)
    (entry : String × StoreVal) (sh cm : List Int)
    (hp : parseRunningRec entry.2 = some (sh, cm))
    (hA : cm.any env.pidExists = true) :
    stepTrack env st ev entry = ⟨st, ev, none⟩ := by
  rw [stepTrack_wf env st ev entry sh cm hp, if_pos hA]

theorem stepTrack_wf_dead (env : Env) (st : Store) (ev : List Event)
    (entry : String × StoreVal) (sh cm : List Int)
    (hp : parseRunningRec entry.2 = some (sh, cm))
    (hA : cm.any env.pidExists = false) :
    stepTrack env st ev entry =
      ⟨{ st with runningJob := hdel st.runningJob entry.1 },
       ev ++ [.closePids sh], none⟩ := by
  rw [stepTrack_wf env st ev entry sh cm hp, if_neg (by simp [hA])]

theorem stepTrack_store_cases (env : Env) (st : Store) (ev : List Event)
    (entry : String × StoreVal) :
    (stepTrack env st ev entry).store = st ∨
    (stepTrack env st ev entry).store =
      { st with runningJob := hdel st.runningJob entry.1 } := by
  unfold stepTrack
  repeat' split
  all_goals first | exact Or.inl rfl | exact Or.inr rfl

theorem stepTrack_events_mono (env : Env) (st : Store) (ev : List Event)
    (entry : String × StoreVal) (e : Event) (h : e ∈ ev) :
    e ∈ (stepTrack env st ev entry).events := by
  unfold stepTrack
  repeat' split
  all_goals first | exact h | exact List.mem_append_left _ h

theorem stepTrack_run_false (env : Env) (st : Store) (ev : List Event)
    (entry : String × StoreVal) (x : String)
    (h : hexists st.runningJob x = false) :
    hexists (stepTrack env st ev entry).store.runningJob x = false := by
  rcases stepTrack_store_cases env st ev entry with hc | hc
  · rw [hc]
    exact h
  · rw [hc]
    exact hexists_hdel_false st.runningJob entry.1 x h

theorem checkJobStatusFrom_events_mono (env : Env)
    (snap : List (String × StoreVal)) :
    ∀ (st : Store) (ev : List Event) (e : Event), e ∈ ev →
    e ∈ (checkJobStatusFrom env st ev snap).events := by
  induction snap with
  | nil => exact fun st ev e h => h
  | cons entry rest ih =>
    intro st ev e h
    have hm := stepTrack_events_mono env st ev entry e h
    unfold checkJobStatusFrom
    split
    next s2 e2 er heq =>
      rw [heq] at hm
      exact hm
    next s2 e2 heq =>
      rw [heq] at hm
      exact ih s2 e2 e hm

theorem checkJobStatusFrom_run_false (env : Env)
    (snap : List (String × StoreVal)) :
    ∀ (st : Store) (ev : List Event) (x : String),
    hexists st.runningJob x = false →
    hexists (checkJobStatusFrom env st ev snap).store.runningJob x = false := by
  induction snap with
  | nil => exact fun st ev x h => h
  | cons entry rest ih =>
    intro st ev x h
    have hm := stepTrack_run_false env st ev entry x h
    unfold checkJobStatusFrom
    split
    next s2 e2 er heq =>
      rw [heq] at hm
      exact hm
    next s2 e2 heq =>
      rw [heq] at hm
      exact ih s2 e2 x hm

theorem checkJobStatusFrom_err_none (env : Env) :
    ∀ (snap : List (String × StoreVal)) (st : Store) (ev : List Event),
    (∀ e ∈ snap, ∃ pr, parseRunningRec e.2 = some pr) →
    (checkJobStatusFrom env st ev snap).err = none := by
  intro snap
  induction snap with
  | nil => exact fun st ev _ => rfl
  | cons entry rest ih =>
    intro st ev hwf
    obtain ⟨⟨sh2, cm2⟩, hpr⟩ := hwf entry (List.mem_cons_self entry rest)
    have hu0 : checkJobStatusFrom env st ev (entry :: rest) =
        match stepTrack env st ev entry with
        | ⟨s2, e2, some e⟩ => ⟨s2, e2, some e⟩
        | ⟨s2, e2, none⟩ => checkJobStatusFrom env s2 e2 rest := rfl
    cases hA : cm2.any env.pidExists
    · rw [hu0, stepTrack_wf_dead env st ev entry sh2 cm2 hpr hA]
      exact ih _ _ (fun e he => hwf e (List.mem_cons_of_mem _ he))
    · rw [hu0, stepTrack_wf_alive env st ev entry sh2 cm2 hpr hA]
      exact ih _ _ (fun e he => hwf e (List.mem_cons_of_mem _ he))

theorem checkJobStatusFrom_keeps_alive (env : Env) (job : String)
    (v : StoreVal) (sh cm : List Int) (hv : parseRunningRec v = some (sh, cm))
    (hA : cm.any env.pidExists = true) :
    ∀ (snap : List (String × StoreVal)) (st : Store) (ev : List Event),
    (∀ e ∈ snap, e.1 = job → e = (job, v)) →
    hget st.runningJob job = some v →
    hget (checkJobStatusFrom env st ev snap).store.runningJob job = some v := by
  intro snap
  induction snap with
  | nil => exact fun st ev _ hg => hg
  | cons entry rest ih =>
    intro st ev hone hg
    have hu0 : checkJobStatusFrom env st ev (entry :: rest) =
        match stepTrack env st ev entry with
        | ⟨s2, e2, some e⟩ => ⟨s2, e2, some e⟩
        | ⟨s2, e2, none⟩ => checkJobStatusFrom env s2 e2 rest := rfl
    by_cases he : entry.1 = job
    · have heq := hone entry (List.mem_cons_self entry rest) he
      subst heq
      rw [hu0, stepTrack_wf_alive env st ev (job, v) sh cm hv hA]
      exact ih st ev (fun e heR hek => hone e (List.mem_cons_of_mem _ heR) hek) hg
    · rcases hsc : stepTrack env st ev entry with ⟨s2, e2, err2⟩
      have hcases := stepTrack_store_cases env st ev entry
      rw [hsc] at hcases
      have hg2 : hget s2.runningJob job = some v := by
        rcases hcases with h | h
        · have h2 : s2 = st := h
          rw [h2]
          exact hg
        · have h2 : s2 = { st with runningJob := hdel st.runningJob entry.1 } := h
          rw [h2]
          show hget (hdel st.runningJob entry.1) job = some v
          rw [hget_hdel_ne st.runningJob entry.1 job he]
          exact hg
      rw [hu0, hsc]
      cases err2 with
      | none =>
        exact ih s2 e2 (fun e heR hek => hone e (List.mem_cons_of_mem _ heR) hek) hg2
      | some e => exact hg2

theorem checkJobStatusFrom_reaps (env : Env) (job : String) (v : StoreVal)
    (sh cm : List Int) (hv : parseRunningRec v = some (sh, cm))
    (hA : cm.any env.pidExists = false) :
    ∀ (snap : List (String × StoreVal)) (st : Store) (ev : List Event),
    (∀ e ∈ snap, ∃ pr, parseRunningRec e.2 = some pr) →
    (job, v) ∈ snap →
    hexists (checkJobStatusFrom env st ev snap).store.runningJob job = false ∧
    Event.closePids sh ∈ (checkJobStatusFrom env st ev snap).events := by
  intro snap
  induction snap with
  | nil => exact fun st ev _ hmem => absurd hmem (List.not_mem_nil _)
  | cons entry rest ih =>
    intro st ev hwf hmem
    have hu0 : checkJobStatusFrom env st ev (entry :: rest) =
        match stepTrack env st ev entry with
        | ⟨s2, e2, some e⟩ => ⟨s2, e2, some e⟩
        | ⟨s2, e2, none⟩ => checkJobStatusFrom env s2 e2 rest := rfl
    rcases List.mem_cons.mp hmem with h1 | h1
    · subst h1
      rw [hu0, stepTrack_wf_dead env st ev (job, v) sh cm hv hA]
      constructor
      · exact checkJobStatusFrom_run_false env rest
          { st with runningJob := hdel st.runningJob job }
          (ev ++ [Event.closePids sh]) job (hexists_hdel_self st.runningJob job)
      · exact checkJobStatusFrom_events_mono env rest
          { st with runningJob := hdel st.runningJob job }
          (ev ++ [Event.closePids sh]) (Event.closePids sh)
          (List.mem_append_right ev (List.mem_singleton.mpr rfl))
    · obtain ⟨⟨sh2, cm2⟩, hpr⟩ := hwf entry (List.mem_cons_self entry rest)
      cases hA2 : cm2.any env.pidExists
      · rw [hu0, stepTrack_wf_dead env st ev entry sh2 cm2 hpr hA2]
        exact ih _ _ (fun e he => hwf e (List.mem_cons_of_mem _ he)) h1
      · rw [hu0, stepTrack_wf_alive env st ev entry sh2 cm2 hpr hA2]
        exact ih _ _ (fun e he => hwf e (List.mem_cons_of_mem _ he)) h1

/-- Counterexample for C3: the claim's own "empty command-PID list"
case fails on the record the code actually produces.  A launch that
spawns nothing makes `_start_job` write `{}` (an empty `defaultdict`
serialised), and on that record the tracker's `pid_dict["command_pids"]`
raises KeyError: the cycle aborts, `job0` is not reaped even though it
has no live command pid, no shell pid is closed, and the dead `job1`
behind it in the snapshot is not reaped either. -/
theorem c3_counterexample_empty_record_crashes_cycle :
    hget stC3cex.runningJob "job0" = some (.parsed (recordOf [] [])) ∧
    (checkJobStatus sampleEnv stC3cex).err = some (PyErr.keyError "command_pids") ∧
    hexists (checkJobStatus sampleEnv stC3cex).store.runningJob "job0" = true ∧
    hexists (checkJobStatus sampleEnv stC3cex).store.runningJob "job1" = true ∧
    (checkJobStatus sampleEnv stC3cex).events = [] :=
  ⟨rfl, rfl, rfl, rfl, rfl⟩

/-- Claim C3 (amended): in a tracker liveness pass over a running hash
whose records all carry `shell_pids` and `command_pids` keys holding
integer pid lists, a job none of whose recorded command pids exists —
including one whose command-pid list is present but empty — is deleted
from the running hash and its recorded shell pids are passed to
`close_by_pid`; conversely a job with at least one existing command pid
keeps its record, and the cycle raises no exception.  The proviso is
forced by the counterexample: the `{}` record `_start_job` writes for a
zero-spawn launch lacks those keys and makes the cycle raise instead of
reaping. -/
theorem c3_tracker_reaps_dead_jobs (env : Env) (st : Store) (job : String)
    (v : StoreVal) (sh cm : List Int)
    (hwf : ∀ e ∈ st.runningJob, ∃ pr, parseRunningRec e.2 = some pr)
    (hnd : (st.runningJob.map Prod.fst).Nodup)
    (hmem : (job, v) ∈ st.runningJob)
    (hrec : parseRunningRec v = some (sh, cm)) :
    (checkJobStatus env st).err = none ∧
    ((∀ p ∈ cm, env.pidExists p = false) →
      hexists (checkJobStatus env st).store.runningJob job = false ∧
      Event.closePids sh ∈ (checkJobStatus env st).events) ∧
    ((∃ p ∈ cm, env.pidExists p = true) →
      hget (checkJobStatus env st).store.runningJob job = some v) := by
  refine ⟨?_, ?_, ?_⟩
  · exact checkJobStatusFrom_err_none env st.runningJob st [] hwf
  · intro hdead
    have hA : cm.any env.pidExists = false := by
      rw [List.any_eq_false]
      intro p hp2
      simp [hdead p hp2]
    exact checkJobStatusFrom_reaps env job v sh cm hrec hA st.runningJob st []
      hwf hmem
  · intro hex
    obtain ⟨p, hp2, hpe⟩ := hex
    have hA : cm.any env.pidExists = true := List.any_eq_true.mpr ⟨p, hp2, hpe⟩
    have hone := mem_eq_of_nodup_keys st.runningJob job v hnd hmem
    have hg := hget_eq_of_mem st.runningJob job v hmem hone
    exact checkJobStatusFrom_keeps_alive env job v sh cm hrec hA st.runningJob
      st [] hone hg

/-- Witness for the amended C3: a running job whose record carries the
`command_pids` key with an empty list — the shape the amended claim's
empty-list case requires, producible only by a writer other than
`_start_job` — is reaped within the cycle and `close_by_pid` receives
its (empty) shell-pid list. -/
theorem c3_witness :
    hexists (checkJobStatus sampleEnv stC3w).store.runningJob "job1" = false ∧
    Event.closePids [] ∈ (checkJobStatus sampleEnv stC3w).events := by
  have h := c3_tracker_reaps_dead_jobs sampleEnv stC3w "job1"
    (.parsed emptyPidsRec) [] []
    (by
      intro e he
      simp only [stC3w] at he
      rw [List.mem_singleton] at he
      subst he
      exact ⟨([], []), rfl⟩)
    (by simp [stC3w])
    (by simp [stC3w])
    rfl
  exact h.2.1 (fun p hp => absurd hp (List.not_mem_nil p))

theorem hget_hset_self {α : Type} (m : List (String × α)) (k : String)
    (v : α) : hget (hset m k v) k = some v := by
  induction m with
  | nil =>
    show hget ([] ++ [(k, v)]) k = some v
    exact hget_cons_pos (k, v) [] k rfl
  | cons kv m ih =>
    by_cases hk : kv.1 = k
    · have hc : (kv :: m).any (fun kv => kv.1 = k) = true := by
        simp [List.any_cons, hk]
      unfold hset
      rw [if_pos hc, List.map_cons, if_pos hk]
      exact hget_cons_pos (k, v) _ k rfl
    · by_cases hm : m.any (fun kv => kv.1 = k) = true
      · have hc : (kv :: m).any (fun kv => kv.1 = k) = true := by
          simp [List.any_cons, hm]
        unfold hset
        rw [if_pos hc, List.map_cons, if_neg hk]
        rw [hget_cons_neg kv _ k hk]
        unfold hset at ih
        rw [if_pos hm] at ih
        exact ih
      · have hc : ¬ (kv :: m).any (fun kv => kv.1 = k) = true := by
          simp only [List.any_cons, Bool.or_eq_true]
          push_neg
          exact ⟨by simp [hk], by simpa using hm⟩
        unfold hset
        rw [if_neg hc]
        show hget (kv :: (m ++ [(k, v)])) k = some v
        rw [hget_cons_neg kv _ k hk]
        unfold hset at ih
        rw [if_neg hm] at ih
        exact ih

theorem spawnInstances_shape (env : Env) (job ctype : String) :
    ∀ (n idx cnt : Nat),
    (spawnInstances env job ctype n idx cnt).events.map Event.spawnIdx =
      (List.range n).map (fun i => idx + i) ∧
    (∀ e ∈ (spawnInstances env job ctype n idx cnt).events,
      ∃ i s c, e = .spawn job ctype i s c) ∧
    (spawnInstances env job ctype n idx cnt).shellPids.length = n ∧
    (spawnInstances env job ctype n idx cnt).commandPids.length = n := by
  intro n
  induction n with
  | zero =>
    exact fun idx cnt => ⟨rfl, fun e he => absurd he (List.not_mem_nil e), rfl, rfl⟩
  | succ n ih =>
    intro idx cnt
    obtain ⟨h1, h2, h3, h4⟩ := ih (idx + 1) (cnt + 1)
    have hev : (spawnInstances env job ctype (n + 1) idx cnt).events =
        .spawn job ctype idx (env.spawnPids cnt).1 (env.spawnPids cnt).2 ::
          (spawnInstances env job ctype n (idx + 1) (cnt + 1)).events := rfl
    refine ⟨?_, ?_, ?_, ?_⟩
    · rw [hev, List.map_cons, h1, List.range_succ_eq_map, List.map_cons,
        List.map_map]
      have hf : (fun i => (idx + 1) + i) = ((fun i => idx + i) ∘ Nat.succ) := by
        funext i
        simp only [Function.comp_apply, Nat.succ_eq_add_one]
        omega
      rw [hf]
      rfl
    · rw [hev]
      intro e he
      rcases List.mem_cons.mp he with h | h
      · exact ⟨idx, _, _, h⟩
      · exact h2 e h
    · show ((env.spawnPids cnt).1 ::
          (spawnInstances env job ctype n (idx + 1) (cnt + 1)).shellPids).length = n + 1
      rw [List.length_cons, h3]
    · show ((env.spawnPids cnt).2 ::
          (spawnInstances env job ctype n (idx + 1) (cnt + 1)).commandPids).length = n + 1
      rw [List.length_cons, h4]

theorem spawnComponents_shape (env : Env) (job : String) :
    ∀ (comps : List (String × CompInfo)) (cnt : Nat),
    (∀ e ∈ (spawnComponents env job comps cnt).events,
      ∃ ct i s c, ct ∈ comps.map Prod.fst ∧ e = .spawn job ct i s c) ∧
    (spawnComponents env job comps cnt).shellPids.length =
      totalInstances comps ∧
    (spawnComponents env job comps cnt).commandPids.length =
      totalInstances comps := by
  intro comps
  induction comps with
  | nil =>
    exact fun cnt => ⟨fun e he => absurd he (List.not_mem_nil e), rfl, rfl⟩
  | cons hd rest ih =>
    intro cnt
    obtain ⟨ct1, info1⟩ := hd
    obtain ⟨g1, g2, g3, g4⟩ :=
      spawnInstances_shape env job ct1 info1.num.toNat 0 cnt
    obtain ⟨r1, r2, r3⟩ :=
      ih (spawnInstances env job ct1 info1.num.toNat 0 cnt).spawnCount
    have hev : (spawnComponents env job ((ct1, info1) :: rest) cnt).events =
        (spawnInstances env job ct1 info1.num.toNat 0 cnt).events ++
          (spawnComponents env job rest
            (spawnInstances env job ct1 info1.num.toNat 0 cnt).spawnCount).events := rfl
    refine ⟨?_, ?_, ?_⟩
    · rw [hev]
      intro e he
      rcases List.mem_append.mp he with h | h
      · obtain ⟨i, s, c, hsp⟩ := g2 e h
        exact ⟨ct1, i, s, c, by simp, hsp⟩
      · obtain ⟨ct2, i, s, c, hct2, hsp⟩ := r1 e h
        exact ⟨ct2, i, s, c, by simp [hct2], hsp⟩
    · show ((spawnInstances env job ct1 info1.num.toNat 0 cnt).shellPids ++
          (spawnComponents env job rest _).shellPids).length = _
      rw [List.length_append, g3, r2]
      simp [totalInstances]
    · show ((spawnInstances env job ct1 info1.num.toNat 0 cnt).commandPids ++
          (spawnComponents env job rest _).commandPids).length = _
      rw [List.length_append, g4, r3]
      simp [totalInstances]

theorem spawnComponents_filter (env : Env) (job : String) :
    ∀ (comps : List (String × CompInfo)) (cnt : Nat) (ct : String)
      (info : CompInfo),
    (comps.map Prod.fst).Nodup → (ct, info) ∈ comps →
    ((spawnComponents env job comps cnt).events.filter
        (fun e => e.isSpawnOf job ct)).map Event.spawnIdx =
      List.range info.num.toNat := by
  intro comps
  induction comps with
  | nil => exact fun cnt ct info _ hmem => absurd hmem (List.not_mem_nil _)
  | cons hd rest ih =>
    intro cnt ct info hnd hmem
    obtain ⟨ct1, info1⟩ := hd
    rw [List.map_cons, List.nodup_cons] at hnd
    obtain ⟨g1, g2, g3, g4⟩ :=
      spawnInstances_shape env job ct1 info1.num.toNat 0 cnt
    have hev : (spawnComponents env job ((ct1, info1) :: rest) cnt).events =
        (spawnInstances env job ct1 info1.num.toNat 0 cnt).events ++
          (spawnComponents env job rest
            (spawnInstances env job ct1 info1.num.toNat 0 cnt).spawnCount).events := rfl
    rw [hev, List.filter_append, List.map_append]
    rcases List.mem_cons.mp hmem with h1 | h1
    · rw [Prod.mk.injEq] at h1
      obtain ⟨hct, hinfo⟩ := h1
      subst hct
      subst hinfo
      have hfil1 : (spawnInstances env job ct info.num.toNat 0 cnt).events.filter
          (fun e => e.isSpawnOf job ct) =
          (spawnInstances env job ct info.num.toNat 0 cnt).events := by
        rw [List.filter_eq_self]
        intro e he
        obtain ⟨i, s, c, hsp⟩ := g2 e he
        rw [hsp]
        simp [Event.isSpawnOf]
      have hfil2 : (spawnComponents env job rest
          (spawnInstances env job ct info.num.toNat 0 cnt).spawnCount).events.filter
          (fun e => e.isSpawnOf job ct) = [] := by
        rw [List.filter_eq_nil_iff]
        intro e he
        obtain ⟨ct2, i, s, c, hct2, hsp⟩ :=
          (spawnComponents_shape env job rest
            (spawnInstances env job ct info.num.toNat 0 cnt).spawnCount).1 e he
        rw [hsp]
        simp only [Event.isSpawnOf, Bool.and_eq_true, decide_eq_true_eq, not_and]
        intro _hj hc
        exact hnd.1 (hc ▸ hct2)
      rw [hfil1, hfil2, List.map_nil, List.append_nil, g1]
      have hf : (fun i => 0 + i) = (id : Nat → Nat) := by
        funext i
        simp
      rw [hf, List.map_id]
    · have hct : ct ≠ ct1 := by
        intro hc
        apply hnd.1
        rw [← hc]
        exact List.mem_map.mpr ⟨(ct, info), h1, rfl⟩
      have hfil1 : (spawnInstances env job ct1 info1.num.toNat 0 cnt).events.filter
          (fun e => e.isSpawnOf job ct) = [] := by
        rw [List.filter_eq_nil_iff]
        intro e he
        obtain ⟨i, s, c, hsp⟩ := g2 e he
        rw [hsp]
        simp only [Event.isSpawnOf, Bool.and_eq_true, decide_eq_true_eq, not_and]
        intro _hj hc
        exact hct hc.symm
      rw [hfil1, List.map_nil, List.nil_append]
      exact ih _ ct info hnd.2 h1

/-- Claim C6: `_start_job` spawns exactly `num` instances of each
component type (instance indices 0 to num−1 in order), accumulates one
shell pid and one command pid per instance, and only after all spawns
performs the single RunningRecord write (the write event is the sole
non-spawn event and comes last); the record stored under the job's name
is exactly the accumulated pid lists, whose lengths equal the total
instance count. -/
theorem c6_start_job_spawns_all_then_single_write (env : Env) (cnt : Nat)
    (st : Store) (d : JobDetail)
    (hnd : (d.components.map Prod.fst).Nodup) :
    ∃ sev : List Event,
      (startJob env cnt st d).2.1 = sev ++ [Event.writeRunning d.name] ∧
      (∀ e ∈ sev, e.isSpawn = true) ∧
      (∀ ct info, (ct, info) ∈ d.components →
        (sev.filter (fun e => e.isSpawnOf d.name ct)).map Event.spawnIdx =
          List.range info.num.toNat) ∧
      hget (startJob env cnt st d).1.runningJob d.name =
        some (.parsed (recordOf
          (spawnComponents env d.name d.components cnt).shellPids
          (spawnComponents env d.name d.components cnt).commandPids)) ∧
      (spawnComponents env d.name d.components cnt).shellPids.length =
        totalInstances d.components ∧
      (spawnComponents env d.name d.components cnt).commandPids.length =
        totalInstances d.components := by
  obtain ⟨s1, s2, s3⟩ := spawnComponents_shape env d.name d.components cnt
  refine ⟨(spawnComponents env d.name d.components cnt).events, rfl, ?_, ?_,
    ?_, s2, s3⟩
  · intro e he
    obtain ⟨ct, i, s, c, _, hsp⟩ := s1 e he
    rw [hsp]
    rfl
  · exact fun ct info hmem =>
      spawnComponents_filter env d.name d.components cnt ct info hnd hmem
  · exact hget_hset_self st.runningJob d.name _

/-- Witness for C6: the `{driver: num 1, worker: num 2}` JobSpec yields
3 shell pids and 3 command pids, and the RunningRecord write is the
single trailing event after the spawns. -/
theorem c6_witness :
    (spawnComponents sampleEnv "jobB" detailDW.components 0).shellPids.length = 3 ∧
    (spawnComponents sampleEnv "jobB" detailDW.components 0).commandPids.length = 3 ∧
    ∃ sev : List Event,
      (startJob sampleEnv 0 idleSt detailDW).2.1 =
        sev ++ [Event.writeRunning "jobB"] := by
  obtain ⟨sev, h1, h2, h3, h4, h5, h6⟩ :=
    c6_start_job_spawns_all_then_single_write sampleEnv 0 idleSt detailDW
      (by decide)
  refine ⟨?_, ?_, ⟨sev, h1⟩⟩
  · show (spawnComponents sampleEnv detailDW.name detailDW.components 0).shellPids.length = 3
    rw [h5]
    rfl
  · show (spawnComponents sampleEnv detailDW.name detailDW.components 0).commandPids.length = 3
    rw [h6]
    rfl

/-- Witness for C9: the admission of `jobB` under a free cap keeps
`jobB` visible in the pending list or the running hash across all three
intermediate store states. -/
theorem c9_witness :
    (∃ mid : Store,
      admissionTrace sampleEnv 0 stC9w detailDW "jobB" =
        [stC9w, mid, (stepPending sampleEnv stC9w [] 0 "jobB").store]) ∧
    ∀ s ∈ admissionTrace sampleEnv 0 stC9w detailDW "jobB",
      "jobB" ∈ s.pendingTickets ∨ hexists s.runningJob "jobB" = true :=
  c9_admission_never_loses_job sampleEnv 0 stC9w [] detailDW "jobB"
    (.parsed detailDriverWorker) detailDriverWorker
    (by simp [stC9w]) rfl rfl rfl rfl (by decide)

end JobAgent
